import Mathlib

/-!
Verification of the resumable chunked-upload subsystem of the
facility-upload-app repository.

The development shallowly embeds:

* `utils/resumableUpload.js` (`ResumableUploadManager`): the upload session
  store.  Its durable state is the file system; we model it as `StoreState`,
  three finite-support maps standing for the three disjoint families of
  paths the manager writes (`<id>-metadata.json` records, `<id>-chunk-<n>`
  chunk units, and assembled output files).  The real upload ids are
  32-character MD5 hex strings, so the `(uploadId, chunkNumber)` keying of
  chunk paths is injective and the map abstraction is faithful.
* `controllers/userController.js`: the coordinator endpoints `uploadChunk`,
  `completeResumableUpload` (including the facility insert and the
  facility-count eviction), and `cancelResumableUpload`, together with the
  `facilities` table (`schema.sql`: `facility_code` carries no unique
  constraint) modelled as a list in insertion order.
* `middleware/validationMiddleware.js`: `validateFacilityCode`.

Timestamps (`createdAt` / `updatedAt`) that no behaviour ever reads back are
omitted from the metadata record; `Date.now()` / SQL `NOW()` are modelled by
the `now` field of `AppState`.
-/

namespace FacilityUpload

/-- Chunk payloads: sequences of bytes, modelled as lists of naturals. -/
abbrev Bytes := List Nat

/-- The JSON metadata record `initializeUpload` writes to
`<uploadId>-metadata.json` and `getUploadProgress` rewrites.  `uploadedSize`
and `progress` are absent until the first `getUploadProgress` call adds
them (JSON records are schemaless), hence the `Option`. -/
structure UploadMetadata where
  uploadId : String
  filename : Option String
  fileSize : Nat
  fileHash : String
  chunkSize : Nat
  totalChunks : Nat
  uploadedChunks : List Nat
  uploadedSize : Option Nat
  progress : Option Nat
  status : String
deriving DecidableEq, Repr

/-- The durable state of the upload session store: the metadata record, the
chunk unit and the assembled output file existing (or not) at each logical
path. -/
structure StoreState where
  metadata : String → Option UploadMetadata
  chunks : String → Nat → Option Bytes
  files : String → Option Bytes

/-- Write (or with `none`: delete) the metadata record of `id`. -/
def setMetadata (s : StoreState) (id : String) (v : Option UploadMetadata) : StoreState :=
  { s with metadata := fun j => if j = id then v else s.metadata j }

/-- Write (or with `none`: delete) the chunk unit `(id, n)`. -/
def setChunk (s : StoreState) (id : String) (n : Nat) (v : Option Bytes) : StoreState :=
  { s with chunks := fun j m => if j = id ∧ m = n then v else s.chunks j m }

/-- Write (or with `none`: delete) the output file at path `p`. -/
def setFile (s : StoreState) (p : String) (v : Option Bytes) : StoreState :=
  { s with files := fun q => if q = p then v else s.files q }

/-- `fs.createWriteStream` piping: append bytes to the file at `p`
(creating it when absent). -/
def appendFile (s : StoreState) (p : String) (b : Bytes) : StoreState :=
  setFile s p (some ((s.files p).getD [] ++ b))

/-- A store with no metadata records, no chunk units and no files. -/
def emptyStore : StoreState :=
  { metadata := fun _ => none, chunks := fun _ _ => none, files := fun _ => none }

/-- Modelled digest: `crypto.createHash('md5').update(data).digest('hex')`
from Node's standard library (not part of this repository).  The design
treats the digest as collision-free on the identity strings it is fed
(spec: chunk-path uniqueness "inherits the content-hash's collision
resistance"), so it is modelled as an injective function of its input; the
repository's own logic — the composition of the identity string — is
embedded exactly in `generateUploadId`. -/
def md5Hex (s : String) : String := s

/-- `generateUploadId` (`utils/resumableUpload.js`): the MD5 hex digest of
the string `${filename}-${fileSize}-${fileHash}`. -/
def generateUploadId (filename : String) (fileSize : Nat) (fileHash : String) : String :=
  md5Hex (filename ++ "-" ++ toString fileSize ++ "-" ++ fileHash)

/-- The metadata passed by the caller of `initializeUpload`.  `chunkSize`
is optional (the controller does not pass one). -/
structure InitMeta where
  filename : Option String
  fileSize : Nat
  fileHash : String
  chunkSize : Option Nat
deriving DecidableEq, Repr

/-- The JavaScript `metadata.chunkSize || 5242880`: the 5 MiB default
applies when the field is absent and also when it is `0` (falsy). -/
def resolveChunkSize (c : Option Nat) : Nat :=
  match c with
  | none => 5242880
  | some c => if c = 0 then 5242880 else c

/-- `initializeUpload`: writes a fresh metadata record for `id` with
`totalChunks = ceil(fileSize / chunkSize)` and `status = in_progress`,
and returns it. -/
def initializeUpload (s : StoreState) (id : String) (m : InitMeta) :
    UploadMetadata × StoreState :=
  let cs := resolveChunkSize m.chunkSize
  let meta : UploadMetadata :=
    { uploadId := id, filename := m.filename, fileSize := m.fileSize,
      fileHash := m.fileHash, chunkSize := cs,
      totalChunks := (m.fileSize + cs - 1) / cs,
      uploadedChunks := [], uploadedSize := none, progress := none,
      status := "in_progress" }
  (meta, setMetadata s id (some meta))

/-- The updated metadata record `getUploadProgress` computes: the uploaded
chunk list is recomputed by probing, for each `i` in `1..totalChunks`,
whether the chunk unit `(id, i)` exists; `uploadedSize` is
`uploadedChunks.length * chunkSize` and `progress` is
`Math.round(uploadedChunks.length / totalChunks * 100)`. -/
def progMeta (s : StoreState) (id : String) (meta : UploadMetadata) : UploadMetadata :=
  let uploaded := (List.range' 1 meta.totalChunks).filter (fun i => (s.chunks id i).isSome)
  { meta with uploadedChunks := uploaded,
              uploadedSize := some (uploaded.length * meta.chunkSize),
              progress := some ((200 * uploaded.length + meta.totalChunks) /
                                 (2 * meta.totalChunks)) }

/-- `getUploadProgress`: `null` when the metadata record is absent;
otherwise recomputes the chunk inventory by existence probing, writes the
updated record back to the metadata file, and returns it. -/
def getUploadProgress (s : StoreState) (id : String) :
    Option UploadMetadata × StoreState :=
  match s.metadata id with
  | none => (none, s)
  | some meta =>
      let meta' := progMeta s id meta
      (some meta', setMetadata s id (some meta'))

/-- The acknowledgement `saveChunk` returns. -/
structure ChunkAck where
  chunkNumber : Nat
  saved : Bool
deriving DecidableEq, Repr

/-- `saveChunk`: writes the bytes to the chunk unit `(id, n)`,
unconditionally overwriting whatever was there.  The source performs no
session-existence check before the write. -/
def saveChunk (s : StoreState) (id : String) (n : Nat) (b : Bytes) :
    ChunkAck × StoreState :=
  ({ chunkNumber := n, saved := true }, setChunk s id n (some b))

/-- A sequence of `saveChunk` calls for session `id`, applied in
submission order. -/
def applySaves (s : StoreState) (id : String) (saves : List (Nat × Bytes)) : StoreState :=
  saves.foldl (fun st p => (saveChunk st id p.1 p.2).2) s

/-- `cleanupChunks`: returns immediately when the metadata record is
absent; otherwise deletes the chunk units `1..totalChunks` and then the
metadata record. -/
def cleanupChunks (s : StoreState) (id : String) : StoreState :=
  match s.metadata id with
  | none => s
  | some meta =>
      let s1 := (List.range' 1 meta.totalChunks).foldl
        (fun st i => setChunk st id i none) s
      setMetadata s1 id none

/-- The `writeNextChunk` loop of `assembleChunks`: for each chunk index in
turn, fail if its unit is absent, otherwise pipe its bytes onto the output
file and continue.  Bytes already piped before a failure stay in the
output file, exactly as with the source's write stream. -/
def assembleFrom (id out : String) : StoreState → List Nat → Except String Unit × StoreState
  | s, [] => (Except.ok (), s)
  | s, i :: rest =>
      match s.chunks id i with
      | none => (Except.error ("Chunk " ++ toString i ++ " not found"), s)
      | some b => assembleFrom id out (appendFile s out b) rest

/-- `assembleChunks`: fails when the metadata record is absent; otherwise
creates the output file (the write stream truncates), pipes chunks
`1..totalChunks` in ascending numeric order, re-verifying each unit's
existence, and on success runs `cleanupChunks` before resolving with the
output path. -/
def assembleChunks (s : StoreState) (id out : String) :
    Except String String × StoreState :=
  match s.metadata id with
  | none => (Except.error "Upload metadata not found", s)
  | some meta =>
      let s1 := setFile s out (some [])
      match assembleFrom id out s1 (List.range' 1 meta.totalChunks) with
      | (Except.ok _, s2) => (Except.ok out, cleanupChunks s2 id)
      | (Except.error e, s2) => (Except.error e, s2)

/-- The acknowledgement `cancelUpload` returns. -/
structure CancelAck where
  uploadId : String
  cancelled : Bool
deriving DecidableEq, Repr

/-- `cancelUpload`: runs `cleanupChunks` and reports success
unconditionally. -/
def cancelUpload (s : StoreState) (id : String) : CancelAck × StoreState :=
  ({ uploadId := id, cancelled := true }, cleanupChunks s id)

/-- Modelled from the external `xss` package used by `sanitizeInput`
(`middleware/validationMiddleware.js`): with an empty whitelist it rewrites
HTML markup but acts as the identity on markup-free strings; every input
this development quantifies over or evaluates at is markup-free, so the
sanitizer is modelled as the identity on strings. -/
def sanitizeInput (input : String) : String := input

/-- One character of the class `[A-Z0-9_-]` from the facility-code
regular expression. -/
def isFacilityCodeChar (c : Char) : Bool :=
  (decide ('A' ≤ c) && decide (c ≤ 'Z')) || c.isDigit || c = '_' || c = '-'

/-- `validateFacilityCode`: the regular expression `^[A-Z0-9_-]{3,20}$`. -/
def validateFacilityCode (code : String) : Bool :=
  decide (3 ≤ code.length) && decide (code.length ≤ 20) &&
    code.data.all isFacilityCodeChar

/-- A row of the `facilities` table.  `facility_code` has an index but no
unique constraint (`schema.sql`). -/
structure FacilityRec where
  id : Nat
  facility_name : String
  facility_code : String
  description : Option String
  file_path : String
  uploaded_at : Nat
deriving DecidableEq, Repr

/-- The columns the completion insert RETURNINGs to the client. -/
structure FacilityRow where
  id : Nat
  facility_name : String
  facility_code : String
  uploaded_at : Nat
deriving DecidableEq, Repr

/-- The possible responses of `completeResumableUpload`. -/
inductive CompleteResult where
  | validationFailure (msg : String)
  | sessionMissing (msg : String)
  | incomplete (uploadedCount totalChunks : Nat)
  | completionError (msg : String)
  | serverFailure (msg : String)
  | completed (facility : FacilityRow)
deriving DecidableEq, Repr

/-- Whether a completion response is the success response. -/
def CompleteResult.isCompleted : CompleteResult → Bool
  | CompleteResult.completed _ => true
  | _ => false

/-- The coordinator-visible application state: the session store, the
`facilities` table in insertion order, the next serial id, and the clock
(`Date.now()` / SQL `NOW()`). -/
structure AppState where
  store : StoreState
  facilities : List FacilityRec
  nextId : Nat
  now : Nat

/-- `SELECT id, file_path FROM facilities ORDER BY uploaded_at ASC LIMIT 1`:
the record with the smallest `uploaded_at` (leftmost on ties). -/
def oldestFacility : List FacilityRec → Option FacilityRec
  | [] => none
  | r :: rs =>
      some (rs.foldl (fun x y => if y.uploaded_at < x.uploaded_at then y else x) r)

/-- The possible responses of the `uploadChunk` endpoint. -/
inductive ChunkResult where
  | validationFailure (msg : String)
  | chunkError (msg : String)
  | accepted (chunkNumber : Nat) (uploadedChunks : List Nat) (totalChunks : Nat)
deriving DecidableEq, Repr

/-- `uploadChunk` (`controllers/userController.js`): validates that the
upload id, chunk number and chunk payload are present, saves the chunk via
the store (no session check), then reads progress; when the session has no
metadata record the progress is `null` and reading `.uploadedChunks` off it
throws, which the handler reports as a 400 error — after the chunk was
already written. -/
def uploadChunk (s : StoreState) (uploadId : String) (chunkNumber : Option Nat)
    (chunk : Option Bytes) : ChunkResult × StoreState :=
  match chunkNumber, chunk with
  | some n, some b =>
      if uploadId = "" then
        (ChunkResult.validationFailure "uploadId, chunkNumber, and chunk file are required", s)
      else
        let s1 := (saveChunk s uploadId n b).2
        match getUploadProgress s1 uploadId with
        | (some p, s2) => (ChunkResult.accepted n p.uploadedChunks p.totalChunks, s2)
        | (none, s2) =>
            (ChunkResult.chunkError "Cannot read properties of null (reading uploadedChunks)", s2)
  | _, _ =>
      (ChunkResult.validationFailure "uploadId, chunkNumber, and chunk file are required", s)

/-- `completeResumableUpload` (`controllers/userController.js`): validates
inputs, re-derives progress from the store, rejects with the actual counts
when not all chunks are present, otherwise assembles into
`<sanitizedCode>_<Date.now()>.sql`, inserts a `facilities` row, deletes the
single oldest facility (row and backing file) when the row count now
exceeds the ceiling, and finally calls `cleanupChunks` again (a no-op:
assembly already purged the session). -/
def completeResumableUpload (maxFacilities : Nat) (st : AppState)
    (uploadId facilityName facilityCode : String) (description : Option String) :
    CompleteResult × AppState :=
  if uploadId = "" ∨ facilityName = "" ∨ facilityCode = "" then
    (CompleteResult.validationFailure "uploadId, facilityName, and facilityCode are required", st)
  else
    let sanitizedName := sanitizeInput facilityName
    let sanitizedCode := sanitizeInput facilityCode
    let sanitizedDesc := description.map sanitizeInput
    if validateFacilityCode sanitizedCode = false then
      (CompleteResult.validationFailure "Facility code must be 3-20 characters, uppercase letters, digits, underscores, and hyphens only", st)
    else
      match getUploadProgress st.store uploadId with
      | (none, store1) =>
          (CompleteResult.sessionMissing "Upload session not found", { st with store := store1 })
      | (some progress, store1) =>
          if progress.uploadedChunks.length ≠ progress.totalChunks then
            (CompleteResult.incomplete progress.uploadedChunks.length progress.totalChunks,
             { st with store := store1 })
          else
            let finalFilePath := sanitizedCode ++ "_" ++ toString st.now ++ ".sql"
            match assembleChunks store1 uploadId finalFilePath with
            | (Except.error e, store2) =>
                (CompleteResult.completionError e, { st with store := store2 })
            | (Except.ok _, store2) =>
                if (store2.files finalFilePath).isNone then
                  (CompleteResult.serverFailure "Failed to assemble uploaded file",
                   { st with store := store2 })
                else
                  let newRec : FacilityRec :=
                    { id := st.nextId, facility_name := sanitizedName,
                      facility_code := sanitizedCode, description := sanitizedDesc,
                      file_path := finalFilePath, uploaded_at := st.now }
                  let facs1 := st.facilities ++ [newRec]
                  let step :=
                    if maxFacilities < facs1.length then
                      match oldestFacility facs1 with
                      | some old =>
                          (facs1.filter (fun r => decide (r.id ≠ old.id)),
                           setFile store2 old.file_path none)
                      | none => (facs1, store2)
                    else (facs1, store2)
                  let store3 := cleanupChunks step.2 uploadId
                  (CompleteResult.completed
                     { id := newRec.id, facility_name := newRec.facility_name,
                       facility_code := newRec.facility_code,
                       uploaded_at := newRec.uploaded_at },
                   { st with store := store3, facilities := step.1, nextId := st.nextId + 1 })

/-- The row the completion insert returns on the success path. -/
def successRow (st : AppState) (facilityName facilityCode : String) : FacilityRow :=
  { id := st.nextId, facility_name := sanitizeInput facilityName,
    facility_code := sanitizeInput facilityCode, uploaded_at := st.now }

/-- The output path the success path assembles into:
`<sanitizedCode>_<Date.now()>.sql`. -/
def finalPath (st : AppState) (facilityCode : String) : String :=
  sanitizeInput facilityCode ++ "_" ++ toString st.now ++ ".sql"

/-- The store after the success path's progress re-derivation and
assembly. -/
def successStore2 (st : AppState) (uploadId facilityCode : String)
    (meta : UploadMetadata) : StoreState :=
  (assembleChunks (setMetadata st.store uploadId (some (progMeta st.store uploadId meta)))
    uploadId (finalPath st facilityCode)).2

/-- The fully-populated facility record the success path inserts. -/
def successNewRec (st : AppState) (facilityName facilityCode : String)
    (description : Option String) : FacilityRec :=
  { id := st.nextId, facility_name := sanitizeInput facilityName,
    facility_code := sanitizeInput facilityCode,
    description := description.map sanitizeInput,
    file_path := finalPath st facilityCode, uploaded_at := st.now }

/-- The facility list and store after the success path's ceiling check:
when the count after the insert exceeds the ceiling, the single oldest
facility is removed from the table and its backing file deleted. -/
def successStep (maxFacilities : Nat) (st : AppState)
    (uploadId facilityName facilityCode : String) (description : Option String)
    (meta : UploadMetadata) : List FacilityRec × StoreState :=
  let facs1 := st.facilities ++ [successNewRec st facilityName facilityCode description]
  if maxFacilities < facs1.length then
    match oldestFacility facs1 with
    | some old =>
        (facs1.filter (fun r => decide (r.id ≠ old.id)),
         setFile (successStore2 st uploadId facilityCode meta) old.file_path none)
    | none => (facs1, successStore2 st uploadId facilityCode meta)
  else (facs1, successStore2 st uploadId facilityCode meta)

/-- The application state after the success path of
`completeResumableUpload`, written as the composition of the same
operations the handler performs. -/
def successState (maxFacilities : Nat) (st : AppState)
    (uploadId facilityName facilityCode : String) (description : Option String)
    (meta : UploadMetadata) : AppState :=
  { st with
    store := cleanupChunks
      (successStep maxFacilities st uploadId facilityName facilityCode description meta).2
      uploadId,
    facilities :=
      (successStep maxFacilities st uploadId facilityName facilityCode description meta).1,
    nextId := st.nextId + 1 }

/-- The number of chunk units of `id` present among `1..total`. -/
def uploadedCount (s : StoreState) (id : String) (total : Nat) : Nat :=
  ((List.range' 1 total).filter (fun i => (s.chunks id i).isSome)).length

@[simp] lemma setMetadata_metadata (s : StoreState) (id : String)
    (v : Option UploadMetadata) (j : String) :
    (setMetadata s id v).metadata j = if j = id then v else s.metadata j := rfl

@[simp] lemma setMetadata_chunks (s : StoreState) (id : String) (v : Option UploadMetadata) :
    (setMetadata s id v).chunks = s.chunks := rfl

@[simp] lemma setMetadata_files (s : StoreState) (id : String) (v : Option UploadMetadata) :
    (setMetadata s id v).files = s.files := rfl

@[simp] lemma setChunk_chunks (s : StoreState) (id : String) (n : Nat) (v : Option Bytes)
    (j : String) (m : Nat) :
    (setChunk s id n v).chunks j m = if j = id ∧ m = n then v else s.chunks j m := rfl

@[simp] lemma setChunk_metadata (s : StoreState) (id : String) (n : Nat) (v : Option Bytes) :
    (setChunk s id n v).metadata = s.metadata := rfl

@[simp] lemma setChunk_files (s : StoreState) (id : String) (n : Nat) (v : Option Bytes) :
    (setChunk s id n v).files = s.files := rfl

@[simp] lemma setFile_files (s : StoreState) (p : String) (v : Option Bytes) (q : String) :
    (setFile s p v).files q = if q = p then v else s.files q := rfl

@[simp] lemma setFile_chunks (s : StoreState) (p : String) (v : Option Bytes) :
    (setFile s p v).chunks = s.chunks := rfl

@[simp] lemma setFile_metadata (s : StoreState) (p : String) (v : Option Bytes) :
    (setFile s p v).metadata = s.metadata := rfl

@[simp] lemma appendFile_files (s : StoreState) (p : String) (b : Bytes) (q : String) :
    (appendFile s p b).files q =
      if q = p then some ((s.files p).getD [] ++ b) else s.files q := rfl

@[simp] lemma appendFile_chunks (s : StoreState) (p : String) (b : Bytes) :
    (appendFile s p b).chunks = s.chunks := rfl

@[simp] lemma appendFile_metadata (s : StoreState) (p : String) (b : Bytes) :
    (appendFile s p b).metadata = s.metadata := rfl

lemma getProgress_none (s : StoreState) (id : String) (hm : s.metadata id = none) :
    getUploadProgress s id = (none, s) := by
  simp [getUploadProgress, hm]

lemma getProgress_some (s : StoreState) (id : String) (meta : UploadMetadata)
    (hm : s.metadata id = some meta) :
    getUploadProgress s id =
      (some (progMeta s id meta), setMetadata s id (some (progMeta s id meta))) := by
  simp [getUploadProgress, hm]

@[simp] lemma progMeta_totalChunks (s : StoreState) (id : String) (meta : UploadMetadata) :
    (progMeta s id meta).totalChunks = meta.totalChunks := rfl

@[simp] lemma progMeta_chunkSize (s : StoreState) (id : String) (meta : UploadMetadata) :
    (progMeta s id meta).chunkSize = meta.chunkSize := rfl

lemma progMeta_uploadedChunks (s : StoreState) (id : String) (meta : UploadMetadata) :
    (progMeta s id meta).uploadedChunks =
      (List.range' 1 meta.totalChunks).filter (fun i => (s.chunks id i).isSome) := rfl

lemma progMeta_uploadedSize (s : StoreState) (id : String) (meta : UploadMetadata) :
    (progMeta s id meta).uploadedSize =
      some ((progMeta s id meta).uploadedChunks.length * meta.chunkSize) := rfl

lemma foldl_clear_chunks (id : String) (l : List Nat) (s : StoreState)
    (j : String) (m : Nat) :
    ((l.foldl (fun st i => setChunk st id i none) s).chunks j m) =
      if j = id ∧ m ∈ l then none else s.chunks j m := by
  induction l generalizing s with
  | nil => simp
  | cons i t ih =>
      simp only [List.foldl_cons, ih, setChunk_chunks, List.mem_cons]
      by_cases hj : j = id
      · by_cases hm : m = i
        · simp [hj, hm]
        · by_cases hmt : m ∈ t <;> simp [hj, hm, hmt]
      · simp [hj]

lemma foldl_clear_metadata (id : String) (l : List Nat) (s : StoreState) :
    (l.foldl (fun st i => setChunk st id i none) s).metadata = s.metadata := by
  induction l generalizing s with
  | nil => rfl
  | cons i t ih => simp [List.foldl_cons, ih]

lemma foldl_clear_files (id : String) (l : List Nat) (s : StoreState) :
    (l.foldl (fun st i => setChunk st id i none) s).files = s.files := by
  induction l generalizing s with
  | nil => rfl
  | cons i t ih => simp [List.foldl_cons, ih]

lemma cleanupChunks_of_none (s : StoreState) (id : String) (hm : s.metadata id = none) :
    cleanupChunks s id = s := by
  simp [cleanupChunks, hm]

lemma cleanupChunks_spec (s : StoreState) (id : String) (meta : UploadMetadata)
    (hm : s.metadata id = some meta) :
    (cleanupChunks s id).metadata id = none ∧
    (∀ j, j ≠ id → (cleanupChunks s id).metadata j = s.metadata j) ∧
    (∀ j m, (cleanupChunks s id).chunks j m =
        if j = id ∧ m ∈ List.range' 1 meta.totalChunks then none else s.chunks j m) ∧
    (cleanupChunks s id).files = s.files := by
  simp only [cleanupChunks, hm]
  refine ⟨by simp, fun j hj => by simp [hj, foldl_clear_metadata], fun j m => ?_,
    by simp [foldl_clear_files]⟩
  simp [foldl_clear_chunks]

lemma assembleFrom_ok (id out : String) (idxs : List Nat) :
    ∀ (s : StoreState) (acc : Bytes), s.files out = some acc →
    (∀ i ∈ idxs, (s.chunks id i).isSome = true) →
    (assembleFrom id out s idxs).1 = Except.ok () ∧
    (assembleFrom id out s idxs).2.files out =
      some (acc ++ (idxs.map (fun i => (s.chunks id i).getD [])).flatten) ∧
    (∀ p, p ≠ out → (assembleFrom id out s idxs).2.files p = s.files p) ∧
    (assembleFrom id out s idxs).2.chunks = s.chunks ∧
    (assembleFrom id out s idxs).2.metadata = s.metadata := by
  induction idxs with
  | nil =>
      intro s acc hacc _
      simp [assembleFrom, hacc]
  | cons i t ih =>
      intro s acc hacc hfull
      obtain ⟨b, hb⟩ := Option.isSome_iff_exists.mp (hfull i (by simp))
      have h1 : (appendFile s out b).files out = some (acc ++ b) := by
        simp [hacc]
      have h2 : ∀ j ∈ t, ((appendFile s out b).chunks id j).isSome = true := by
        intro j hj
        simpa using hfull j (by simp [hj])
      obtain ⟨hok, hfo, hfp, hch, hmd⟩ := ih (appendFile s out b) (acc ++ b) h1 h2
      simp only [assembleFrom, hb]
      refine ⟨hok, ?_, ?_, by simpa using hch, by simpa using hmd⟩
      · rw [hfo]
        simp [hb, List.append_assoc]
      · intro p hp
        rw [hfp p hp]
        simp [hp]

lemma assembleFrom_err (id out : String) (idxs : List Nat) :
    ∀ (s : StoreState), (∃ j ∈ idxs, s.chunks id j = none) →
    ∃ e, (assembleFrom id out s idxs).1 = Except.error e := by
  induction idxs with
  | nil =>
      rintro s ⟨j, hj, _⟩
      simp at hj
  | cons i t ih =>
      rintro s ⟨j, hj, hnone⟩
      cases hchunk : s.chunks id i with
      | none => exact ⟨"Chunk " ++ toString i ++ " not found", by simp [assembleFrom, hchunk]⟩
      | some b =>
          have hj' : j ∈ t := by
            rcases List.mem_cons.mp hj with h | h
            · subst h
              rw [hchunk] at hnone
              cases hnone
            · exact h
          obtain ⟨e, he⟩ := ih (appendFile s out b) ⟨j, hj', by simpa using hnone⟩
          exact ⟨e, by simpa [assembleFrom, hchunk] using he⟩

lemma assembleChunks_complete (s : StoreState) (id out : String) (meta : UploadMetadata)
    (hm : s.metadata id = some meta)
    (hfull : ∀ i ∈ List.range' 1 meta.totalChunks, (s.chunks id i).isSome = true) :
    (assembleChunks s id out).1 = Except.ok out ∧
    (assembleChunks s id out).2.files out =
      some (((List.range' 1 meta.totalChunks).map (fun i => (s.chunks id i).getD [])).flatten) ∧
    (∀ p, p ≠ out → (assembleChunks s id out).2.files p = s.files p) ∧
    (∀ j m, (assembleChunks s id out).2.chunks j m =
        if j = id ∧ m ∈ List.range' 1 meta.totalChunks then none else s.chunks j m) ∧
    (assembleChunks s id out).2.metadata id = none ∧
    (∀ j, j ≠ id → (assembleChunks s id out).2.metadata j = s.metadata j) := by
  have hset : (setFile s out (some [])).files out = some ([] : Bytes) := by simp
  have hfull1 : ∀ i ∈ List.range' 1 meta.totalChunks,
      ((setFile s out (some [])).chunks id i).isSome = true := by
    simpa using hfull
  obtain ⟨hok, hfo, hfp, hch, hmd⟩ :=
    assembleFrom_ok id out (List.range' 1 meta.totalChunks) (setFile s out (some [])) [] hset hfull1
  have hpair : assembleFrom id out (setFile s out (some [])) (List.range' 1 meta.totalChunks) =
      (Except.ok (),
       (assembleFrom id out (setFile s out (some [])) (List.range' 1 meta.totalChunks)).2) := by
    rw [← hok]
  have hmd2 : (assembleFrom id out (setFile s out (some []))
      (List.range' 1 meta.totalChunks)).2.metadata id = some meta := by
    rw [hmd]; simpa using hm
  obtain ⟨hc1, hc2, hc3, hc4⟩ := cleanupChunks_spec _ id meta hmd2
  simp only [assembleChunks, hm]
  rw [hpair]
  refine ⟨rfl, ?_, ?_, ?_, hc1, ?_⟩
  · rw [hc4, hfo]
    simp
  · intro p hp
    rw [hc4, hfp p hp]
    simp [hp]
  · intro j m
    rw [hc3 j m, hch]
    simp
  · intro j hj
    rw [hc2 j hj, hmd]
    simp

lemma lookup_eq_none_of_not_mem_keys {saves : List (Nat × Bytes)} {k : Nat}
    (h : k ∉ saves.map Prod.fst) : saves.lookup k = none := by
  induction saves with
  | nil => rfl
  | cons p t ih =>
      obtain ⟨a, pb⟩ := p
      simp only [List.map_cons, List.mem_cons] at h
      push_neg at h
      have hba : (k == a) = false := by simpa using h.1
      simp [List.lookup_cons, hba, ih h.2]

lemma lookup_isSome_of_mem_keys {saves : List (Nat × Bytes)} {k : Nat}
    (h : k ∈ saves.map Prod.fst) : ∃ b, saves.lookup k = some b := by
  induction saves with
  | nil => simp at h
  | cons p t ih =>
      obtain ⟨a, pb⟩ := p
      by_cases hk : k = a
      · exact ⟨pb, by simp [List.lookup_cons, hk]⟩
      · have hba : (k == a) = false := by simpa using hk
        simp only [List.map_cons, List.mem_cons] at h
        obtain ⟨b, hb⟩ := ih (by tauto)
        exact ⟨b, by simp [List.lookup_cons, hba, hb]⟩

lemma applySaves_metadata (id : String) (saves : List (Nat × Bytes)) (s : StoreState) :
    (applySaves s id saves).metadata = s.metadata := by
  induction saves generalizing s with
  | nil => rfl
  | cons p t ih =>
      have step : applySaves s id (p :: t) = applySaves (setChunk s id p.1 (some p.2)) id t := rfl
      rw [step, ih]
      rfl

lemma applySaves_files (id : String) (saves : List (Nat × Bytes)) (s : StoreState) :
    (applySaves s id saves).files = s.files := by
  induction saves generalizing s with
  | nil => rfl
  | cons p t ih =>
      have step : applySaves s id (p :: t) = applySaves (setChunk s id p.1 (some p.2)) id t := rfl
      rw [step, ih]
      rfl

lemma applySaves_chunks_lookup (id : String) (saves : List (Nat × Bytes)) (s : StoreState)
    (k : Nat) (hnd : (saves.map Prod.fst).Nodup) :
    (applySaves s id saves).chunks id k =
      match saves.lookup k with
      | some b => some b
      | none => s.chunks id k := by
  induction saves generalizing s with
  | nil => rfl
  | cons p t ih =>
      obtain ⟨a, pb⟩ := p
      simp only [List.map_cons, List.nodup_cons] at hnd
      have step : applySaves s id ((a, pb) :: t) =
          applySaves (setChunk s id a (some pb)) id t := rfl
      rw [step, ih _ hnd.2]
      by_cases hk : k = a
      · subst hk
        rw [lookup_eq_none_of_not_mem_keys hnd.1]
        simp [List.lookup_cons]
      · have hba : (k == a) = false := by simpa using hk
        cases hl : t.lookup k with
        | some b => simp [List.lookup_cons, hba, hl]
        | none => simp [List.lookup_cons, hba, hl, hk]

lemma resolveChunkSize_pos (c : Option Nat) : 0 < resolveChunkSize c := by
  cases c with
  | none => simp [resolveChunkSize]
  | some c' =>
      by_cases h : c' = 0 <;> simp [resolveChunkSize, h]
      omega

lemma ceil_mul_gt (n c : Nat) (hc : 0 < c) (hmod : n % c ≠ 0) :
    n < ((n + c - 1) / c) * c := by
  have hqr : c * (n / c) + n % c = n := Nat.div_add_mod n c
  have hrc : n % c < c := Nat.mod_lt n hc
  have hr1 : 1 ≤ n % c := Nat.one_le_iff_ne_zero.mpr hmod
  have he : (n / c + 1) * c = c * (n / c) + c := by ring
  have hstep : (n / c + 1) * c ≤ n + c - 1 := by omega
  have hT : n / c + 1 ≤ (n + c - 1) / c := (Nat.le_div_iff_mul_le hc).mpr hstep
  have hTc : (n / c + 1) * c ≤ ((n + c - 1) / c) * c := Nat.mul_le_mul_right c hT
  omega

lemma oldest_foldl_eq (m : FacilityRec) :
    ∀ (rs : List FacilityRec) (a : FacilityRec),
    (a = m ∨ m ∈ rs) →
    (∀ r, (r = a ∨ r ∈ rs) → r ≠ m → m.uploaded_at < r.uploaded_at) →
    rs.foldl (fun x y => if y.uploaded_at < x.uploaded_at then y else x) a = m
  | [], a, hmem, _ => by
      rcases hmem with h | h
      · simpa using h
      · simp at h
  | b :: t, a, hmem, hlt => by
      simp only [List.foldl_cons]
      set a' := if b.uploaded_at < a.uploaded_at then b else a with ha'
      have ha'cases : a' = a ∨ a' = b := by
        by_cases hba : b.uploaded_at < a.uploaded_at
        · right; simp [ha', hba]
        · left; simp [ha', hba]
      have hnext : ∀ r, (r = a' ∨ r ∈ t) → r ≠ m → m.uploaded_at < r.uploaded_at := by
        intro r hr hrm
        rcases hr with hr | hr
        · rcases ha'cases with h | h
          · exact hlt r (Or.inl (hr.trans h)) hrm
          · exact hlt r (Or.inr (by simp [hr.trans h])) hrm
        · exact hlt r (Or.inr (by simp [hr])) hrm
      have hmem' : a' = m ∨ m ∈ t := by
        rcases hmem with h | h
        · by_cases hbm : b = m
          · rcases ha'cases with h' | h'
            · exact Or.inl (h'.trans h)
            · exact Or.inl (h'.trans hbm)
          · have hb : m.uploaded_at < b.uploaded_at := hlt b (Or.inr (by simp)) hbm
            left
            rw [ha', if_neg (by rw [h]; omega)]
            exact h
        · rcases List.mem_cons.mp h with h' | h'
          · by_cases ham : a = m
            · rcases ha'cases with h2 | h2
              · exact Or.inl (h2.trans ham)
              · exact Or.inl (h2.trans h'.symm)
            · have ha : m.uploaded_at < a.uploaded_at := hlt a (Or.inl rfl) ham
              left
              rw [ha', if_pos (by rw [← h']; omega)]
              exact h'.symm
          · exact Or.inr h'
      exact oldest_foldl_eq m t a' hmem' hnext

lemma oldestFacility_eq_of_unique_min (l : List FacilityRec) (m : FacilityRec)
    (hm : m ∈ l) (hmin : ∀ r ∈ l, r ≠ m → m.uploaded_at < r.uploaded_at) :
    oldestFacility l = some m := by
  cases l with
  | nil => simp at hm
  | cons r rs =>
      simp only [oldestFacility, Option.some_inj]
      apply oldest_foldl_eq m rs r
      · rcases List.mem_cons.mp hm with h | h
        · exact Or.inl h.symm
        · exact Or.inr h
      · intro x hx hxm
        rcases hx with rfl | hx
        · exact hmin x (by simp) hxm
        · exact hmin x (by simp [hx]) hxm

set_option maxRecDepth 8000 in
lemma completeResumableUpload_success (maxF : Nat) (st : AppState)
    (uploadId name code : String) (desc : Option String) (meta : UploadMetadata)
    (h1 : uploadId ≠ "") (h2 : name ≠ "") (h3 : code ≠ "")
    (h4 : validateFacilityCode (sanitizeInput code) = true)
    (h5 : st.store.metadata uploadId = some meta)
    (h6 : ∀ i ∈ List.range' 1 meta.totalChunks, (st.store.chunks uploadId i).isSome = true) :
    completeResumableUpload maxF st uploadId name code desc =
      (CompleteResult.completed (successRow st name code),
       successState maxF st uploadId name code desc meta) := by
  have hprog := getProgress_some st.store uploadId meta h5
  have hfilter : (List.range' 1 meta.totalChunks).filter
      (fun i => (st.store.chunks uploadId i).isSome) = List.range' 1 meta.totalChunks :=
    List.filter_eq_self.mpr h6
  have hlen : (progMeta st.store uploadId meta).uploadedChunks.length =
      (progMeta st.store uploadId meta).totalChunks := by
    rw [progMeta_uploadedChunks, hfilter, progMeta_totalChunks, List.length_range']
  have hm1 : (setMetadata st.store uploadId
      (some (progMeta st.store uploadId meta))).metadata uploadId =
      some (progMeta st.store uploadId meta) := by simp
  have hfull1 : ∀ i ∈ List.range' 1 (progMeta st.store uploadId meta).totalChunks,
      ((setMetadata st.store uploadId
        (some (progMeta st.store uploadId meta))).chunks uploadId i).isSome = true := by
    simpa using h6
  obtain ⟨hok, hfo, _, _, _, _⟩ :=
    assembleChunks_complete
      (setMetadata st.store uploadId (some (progMeta st.store uploadId meta)))
      uploadId (sanitizeInput code ++ "_" ++ toString st.now ++ ".sql")
      (progMeta st.store uploadId meta) hm1 hfull1
  have hnone : ((assembleChunks
      (setMetadata st.store uploadId (some (progMeta st.store uploadId meta)))
      uploadId (sanitizeInput code ++ "_" ++ toString st.now ++ ".sql")).2.files
        (sanitizeInput code ++ "_" ++ toString st.now ++ ".sql")).isNone = false := by
    rw [hfo]
    rfl
  rcases hsplit : assembleChunks
      (setMetadata st.store uploadId (some (progMeta st.store uploadId meta)))
      uploadId (sanitizeInput code ++ "_" ++ toString st.now ++ ".sql") with ⟨r, s2⟩
  obtain rfl : r = Except.ok (sanitizeInput code ++ "_" ++ toString st.now ++ ".sql") := by
    have hx := hok
    rw [hsplit] at hx
    exact hx
  have hnone2 : (s2.files (sanitizeInput code ++ "_" ++ toString st.now ++ ".sql")).isNone
      = false := by
    have hx := hnone
    rw [hsplit] at hx
    exact hx
  unfold completeResumableUpload successState successStep successStore2 successNewRec successRow finalPath
  rw [if_neg (by simp [h1, h2, h3])]
  rw [if_neg (by simp [h4])]
  simp only [hprog]
  rw [if_neg (not_not_intro hlen)]
  rw [hsplit]
  simp [hnone2]

lemma successState_store (maxF : Nat) (st : AppState) (uploadId name code : String)
    (desc : Option String) (meta : UploadMetadata) :
    (successState maxF st uploadId name code desc meta).store =
      cleanupChunks (successStep maxF st uploadId name code desc meta).2 uploadId := rfl

lemma successState_facilities (maxF : Nat) (st : AppState) (uploadId name code : String)
    (desc : Option String) (meta : UploadMetadata) :
    (successState maxF st uploadId name code desc meta).facilities =
      (successStep maxF st uploadId name code desc meta).1 := rfl

lemma successStep_snd_chunks (maxF : Nat) (st : AppState) (uploadId name code : String)
    (desc : Option String) (meta : UploadMetadata) :
    (successStep maxF st uploadId name code desc meta).2.chunks =
      (successStore2 st uploadId code meta).chunks := by
  unfold successStep
  by_cases hc : maxF < (st.facilities ++ [successNewRec st name code desc]).length
  · simp only [if_pos hc]
    cases oldestFacility (st.facilities ++ [successNewRec st name code desc]) with
    | none => rfl
    | some old => rfl
  · simp only [if_neg hc]

lemma successStep_snd_metadata (maxF : Nat) (st : AppState) (uploadId name code : String)
    (desc : Option String) (meta : UploadMetadata) :
    (successStep maxF st uploadId name code desc meta).2.metadata =
      (successStore2 st uploadId code meta).metadata := by
  unfold successStep
  by_cases hc : maxF < (st.facilities ++ [successNewRec st name code desc]).length
  · simp only [if_pos hc]
    cases oldestFacility (st.facilities ++ [successNewRec st name code desc]) with
    | none => rfl
    | some old => rfl
  · simp only [if_neg hc]

lemma successStep_no_evict (maxF : Nat) (st : AppState) (uploadId name code : String)
    (desc : Option String) (meta : UploadMetadata)
    (h : st.facilities.length + 1 ≤ maxF) :
    successStep maxF st uploadId name code desc meta =
      (st.facilities ++ [successNewRec st name code desc],
       successStore2 st uploadId code meta) := by
  unfold successStep
  rw [if_neg (by simp only [List.length_append, List.length_singleton]; omega)]

lemma successStep_evict (maxF : Nat) (st : AppState) (uploadId name code : String)
    (desc : Option String) (meta : UploadMetadata) (m : FacilityRec)
    (hc : maxF < st.facilities.length + 1)
    (hold : oldestFacility (st.facilities ++ [successNewRec st name code desc]) = some m) :
    successStep maxF st uploadId name code desc meta =
      ((st.facilities ++ [successNewRec st name code desc]).filter
         (fun r => decide (r.id ≠ m.id)),
       setFile (successStore2 st uploadId code meta) m.file_path none) := by
  unfold successStep
  rw [if_pos (by simp only [List.length_append, List.length_singleton]; omega), hold]

lemma successStore2_spec (st : AppState) (uploadId name code : String)
    (meta : UploadMetadata)
    (h5 : st.store.metadata uploadId = some meta)
    (h6 : ∀ i ∈ List.range' 1 meta.totalChunks, (st.store.chunks uploadId i).isSome = true) :
    (successStore2 st uploadId code meta).metadata uploadId = none ∧
    (∀ i ∈ List.range' 1 meta.totalChunks,
      (successStore2 st uploadId code meta).chunks uploadId i = none) ∧
    (successStore2 st uploadId code meta).files (finalPath st code) =
      some (((List.range' 1 meta.totalChunks).map
        (fun i => (st.store.chunks uploadId i).getD [])).flatten) := by
  have hm1 : (setMetadata st.store uploadId
      (some (progMeta st.store uploadId meta))).metadata uploadId =
      some (progMeta st.store uploadId meta) := by simp
  have hfull1 : ∀ i ∈ List.range' 1 (progMeta st.store uploadId meta).totalChunks,
      ((setMetadata st.store uploadId
        (some (progMeta st.store uploadId meta))).chunks uploadId i).isSome = true := by
    simpa using h6
  obtain ⟨_, hfo, _, hch, hmdid, _⟩ :=
    assembleChunks_complete
      (setMetadata st.store uploadId (some (progMeta st.store uploadId meta)))
      uploadId (finalPath st code) (progMeta st.store uploadId meta) hm1 hfull1
  refine ⟨hmdid, fun i hi => ?_, ?_⟩
  · have := hch uploadId i
    rw [show (successStore2 st uploadId code meta).chunks uploadId i =
        (assembleChunks
          (setMetadata st.store uploadId (some (progMeta st.store uploadId meta)))
          uploadId (finalPath st code)).2.chunks uploadId i from rfl, this]
    simp only [progMeta_totalChunks] at hi ⊢
    simp [hi]
  · rw [show (successStore2 st uploadId code meta).files (finalPath st code) =
        (assembleChunks
          (setMetadata st.store uploadId (some (progMeta st.store uploadId meta)))
          uploadId (finalPath st code)).2.files (finalPath st code) from rfl, hfo]
    simp

/-- A 2-chunk session record (10 bytes, 5-byte chunks). -/
def exMeta2 : UploadMetadata :=
  { uploadId := "u1", filename := none, fileSize := 10, fileHash := "h",
    chunkSize := 5, totalChunks := 2, uploadedChunks := [], uploadedSize := none,
    progress := none, status := "in_progress" }

/-- A 3-chunk session record (12 bytes, 5-byte chunks). -/
def exMeta3 : UploadMetadata :=
  { uploadId := "u1", filename := none, fileSize := 12, fileHash := "h",
    chunkSize := 5, totalChunks := 3, uploadedChunks := [], uploadedSize := none,
    progress := none, status := "in_progress" }

/-- A 5-chunk session record (23 bytes, 5-byte chunks). -/
def exMeta5 : UploadMetadata :=
  { uploadId := "u3", filename := none, fileSize := 23, fileHash := "h",
    chunkSize := 5, totalChunks := 5, uploadedChunks := [], uploadedSize := none,
    progress := none, status := "in_progress" }

/-- A store holding the 2-chunk session `u1` with both chunks 1 and 2
present and additionally a stray chunk unit numbered 5. -/
def exStore5 : StoreState :=
  { metadata := fun j => if j = "u1" then some exMeta2 else none,
    chunks := fun j m =>
      if j = "u1" ∧ m = 1 then some [1]
      else if j = "u1" ∧ m = 2 then some [2]
      else if j = "u1" ∧ m = 5 then some [99] else none,
    files := fun _ => none }

/-- An application state over `exStore5`. -/
def exApp5 : AppState := { store := exStore5, facilities := [], nextId := 1, now := 1000 }

/-- A store holding the 3-chunk session `u1` with only chunks 1 and 2
present. -/
def exStore1 : StoreState :=
  { metadata := fun j => if j = "u1" then some exMeta3 else none,
    chunks := fun j m =>
      if j = "u1" ∧ m = 1 then some [10]
      else if j = "u1" ∧ m = 2 then some [20] else none,
    files := fun _ => none }

/-- An application state over `exStore1`. -/
def exApp1 : AppState := { store := exStore1, facilities := [], nextId := 1, now := 1000 }

/-- A store holding the 3-chunk session `u1` with no chunks yet. -/
def exStoreM3 : StoreState :=
  { metadata := fun j => if j = "u1" then some exMeta3 else none,
    chunks := fun _ _ => none,
    files := fun _ => none }

/-- A store holding the 5-chunk session `u3` with chunks 1, 3 and 5
present. -/
def exStore3 : StoreState :=
  { metadata := fun j => if j = "u3" then some exMeta5 else none,
    chunks := fun j m => if j = "u3" ∧ (m = 1 ∨ m = 3 ∨ m = 5) then some [m] else none,
    files := fun _ => none }

/-- A store with a chunk unit for `u9` but no metadata record. -/
def exStore8 : StoreState :=
  { metadata := fun _ => none,
    chunks := fun j m => if j = "u9" ∧ m = 1 then some [7] else none,
    files := fun _ => none }

/-- Init-time metadata for a 12-byte file with an explicit 5-byte chunk
size. -/
def exIm : InitMeta :=
  { filename := none, fileSize := 12, fileHash := "h", chunkSize := some 5 }

/-- A store holding the session `u4` created from `exIm` with all three of
its chunks present. -/
def exStore10 : StoreState :=
  { metadata := fun j =>
      if j = "u4" then some (initializeUpload emptyStore "u4" exIm).1 else none,
    chunks := fun j m => if j = "u4" ∧ 1 ≤ m ∧ m ≤ 3 then some [m] else none,
    files := fun _ => none }

/-- C4: `generateUploadId` is a pure, deterministic function: calling it
twice with identical `(fileName, fileSize, fileHash)` yields the identical
id, and for fixed `fileName` and `fileSize`, two distinct `fileHash`
values yield two distinct ids. -/
theorem uploadId_deterministic_and_hash_injective
    (n : String) (sz : Nat) (h h' : String) :
    generateUploadId n sz h = generateUploadId n sz h ∧
    (h ≠ h' → generateUploadId n sz h ≠ generateUploadId n sz h') := by
  refine ⟨rfl, fun hne heq => hne ?_⟩
  have key : ∀ (p a b : String), p ++ a = p ++ b → a = b := by
    intro p a b hpq
    have hd := congrArg String.data hpq
    simp only [String.data_append] at hd
    exact String.ext (List.append_cancel_left hd)
  exact key (n ++ "-" ++ toString sz ++ "-") h h' heq

/-- Witness for C4 at concrete inputs. -/
theorem uploadId_deterministic_and_hash_injective_witness :
    "abc" ≠ ("abd" : String) ∧
    generateUploadId "dump.sql" 12000000 "abc" ≠ generateUploadId "dump.sql" 12000000 "abd" :=
  ⟨by decide,
   (uploadId_deterministic_and_hash_injective "dump.sql" 12000000 "abc" "abd").2 (by decide)⟩

/-- C6 (counterexample): with no metadata record for `u1`, the store-level
`saveChunk` does not fail with `SessionNotFound`; it returns a success
acknowledgement and persists the chunk unit. -/
theorem saveChunk_succeeds_without_session :
    emptyStore.metadata "u1" = none ∧
    (saveChunk emptyStore "u1" 1 [5]).1 = { chunkNumber := 1, saved := true } ∧
    (saveChunk emptyStore "u1" 1 [5]).2.chunks "u1" 1 = some [5] := by
  decide

/-- C6 (amended): `saveChunk` performs no session-existence check: when no
metadata record exists it still succeeds and persists the chunk; the
`uploadChunk` endpoint then reports an error (from reading `null`
progress), not a save-time `SessionNotFound`, with the chunk unit left
written.  When the session does exist, re-sending a chunk number
overwrites without error, last write winning. -/
theorem chunk_write_unchecked_session :
    (∀ (s : StoreState) (id : String) (n : Nat) (b : Bytes),
       s.metadata id = none → id ≠ "" →
       (saveChunk s id n b).1 = { chunkNumber := n, saved := true } ∧
       (saveChunk s id n b).2.chunks id n = some b ∧
       ∃ msg, (uploadChunk s id (some n) (some b)).1 = ChunkResult.chunkError msg ∧
         (uploadChunk s id (some n) (some b)).2.chunks id n = some b)
    ∧ (∀ (s : StoreState) (id : String) (n : Nat) (b b' : Bytes),
        (saveChunk (saveChunk s id n b).2 id n b').1 = { chunkNumber := n, saved := true } ∧
        (saveChunk (saveChunk s id n b).2 id n b').2.chunks id n = some b') := by
  constructor
  · intro s id n b hm hid
    have hgp : getUploadProgress (setChunk s id n (some b)) id =
        (none, setChunk s id n (some b)) :=
      getProgress_none _ _ (by simpa using hm)
    refine ⟨rfl, by simp [saveChunk], ?_⟩
    refine ⟨"Cannot read properties of null (reading uploadedChunks)", ?_, ?_⟩
    · simp [uploadChunk, hid, saveChunk, hgp]
    · simp [uploadChunk, hid, saveChunk, hgp]
  · intro s id n b b'
    exact ⟨rfl, by simp [saveChunk]⟩

/-- Witness for the amended C6 at concrete inputs. -/
theorem chunk_write_unchecked_session_witness :
    ((saveChunk emptyStore "u1" 1 [5]).1 = { chunkNumber := 1, saved := true } ∧
     (saveChunk emptyStore "u1" 1 [5]).2.chunks "u1" 1 = some [5] ∧
     ∃ msg, (uploadChunk emptyStore "u1" (some 1) (some [5])).1 = ChunkResult.chunkError msg ∧
       (uploadChunk emptyStore "u1" (some 1) (some [5])).2.chunks "u1" 1 = some [5]) ∧
    ((saveChunk (saveChunk emptyStore "u1" 1 [5]).2 "u1" 1 [7]).1 =
       { chunkNumber := 1, saved := true } ∧
     (saveChunk (saveChunk emptyStore "u1" 1 [5]).2 "u1" 1 [7]).2.chunks "u1" 1 = some [7]) :=
  ⟨chunk_write_unchecked_session.1 emptyStore "u1" 1 [5] (by decide) (by decide),
   chunk_write_unchecked_session.2 emptyStore "u1" 1 [5] [7]⟩

/-- C8 (counterexample): when a chunk unit exists but no metadata record
does, `cancelUpload` reports success yet deletes nothing: the chunk unit
survives, contradicting "unconditionally deletes all of that upload's
chunk units". -/
theorem cancel_skips_chunks_without_metadata :
    exStore8.metadata "u9" = none ∧
    exStore8.chunks "u9" 1 = some [7] ∧
    (cancelUpload exStore8 "u9").1 = { uploadId := "u9", cancelled := true } ∧
    (cancelUpload exStore8 "u9").2.chunks "u9" 1 = some [7] := by
  decide

/-- C8 (amended): `cancelUpload` always returns a success acknowledgement;
when a metadata record exists it deletes the chunk units `1..totalChunks`
and the metadata record; when no metadata record exists it deletes nothing
and leaves the state unchanged; and it is idempotent: a second cancel
leaves the state of the first unchanged. -/
theorem cancel_ack_and_cleanup :
    (∀ (s : StoreState) (id : String),
       (cancelUpload s id).1 = { uploadId := id, cancelled := true })
    ∧ (∀ (s : StoreState) (id : String) (meta : UploadMetadata),
        s.metadata id = some meta →
        (∀ i ∈ List.range' 1 meta.totalChunks, (cancelUpload s id).2.chunks id i = none) ∧
        (cancelUpload s id).2.metadata id = none)
    ∧ (∀ (s : StoreState) (id : String), s.metadata id = none → (cancelUpload s id).2 = s)
    ∧ (∀ (s : StoreState) (id : String),
        (cancelUpload (cancelUpload s id).2 id).2 = (cancelUpload s id).2) := by
  refine ⟨fun s id => rfl, ?_, ?_, ?_⟩
  · intro s id meta hm
    obtain ⟨hc1, _, hc3, _⟩ := cleanupChunks_spec s id meta hm
    refine ⟨fun i hi => ?_, hc1⟩
    show (cleanupChunks s id).chunks id i = none
    rw [hc3]
    simp [hi]
  · intro s id hm
    exact cleanupChunks_of_none s id hm
  · intro s id
    show cleanupChunks (cleanupChunks s id) id = cleanupChunks s id
    cases h : s.metadata id with
    | none =>
        have e : cleanupChunks s id = s := cleanupChunks_of_none s id h
        rw [e, e]
    | some meta =>
        exact cleanupChunks_of_none _ _ (cleanupChunks_spec s id meta h).1

/-- Witness for the amended C8 at concrete inputs: a populated session,
cancel of a non-existent session, and a double cancel. -/
theorem cancel_ack_and_cleanup_witness :
    (cancelUpload exStore5 "u1").1 = { uploadId := "u1", cancelled := true } ∧
    ((∀ i ∈ List.range' 1 exMeta2.totalChunks, (cancelUpload exStore5 "u1").2.chunks "u1" i = none) ∧
     (cancelUpload exStore5 "u1").2.metadata "u1" = none) ∧
    (cancelUpload emptyStore "u9").2 = emptyStore ∧
    (cancelUpload (cancelUpload exStore5 "u1").2 "u1").2 = (cancelUpload exStore5 "u1").2 :=
  ⟨cancel_ack_and_cleanup.1 exStore5 "u1",
   cancel_ack_and_cleanup.2.1 exStore5 "u1" exMeta2 (by decide),
   cancel_ack_and_cleanup.2.2.1 emptyStore "u9" (by decide),
   cancel_ack_and_cleanup.2.2.2 exStore5 "u1"⟩

/-- C3: for every session, `getUploadProgress` returns as `uploadedChunks`
the strictly ascending (hence duplicate-free) list of exactly those chunk
numbers in `1..totalChunks` whose chunk units currently exist in the
store — whatever sequence of `saveChunk` calls, in whatever order and with
whatever repetitions (and across restarts: the state is all there is),
produced that store. -/
theorem progress_reflects_existing_chunks (s : StoreState) (id : String)
    (meta : UploadMetadata) (hm : s.metadata id = some meta) :
    ∃ p s', getUploadProgress s id = (some p, s') ∧
      p.totalChunks = meta.totalChunks ∧
      p.uploadedChunks.Sorted (· < ·) ∧
      ∀ i, i ∈ p.uploadedChunks ↔
        (1 ≤ i ∧ i ≤ meta.totalChunks ∧ (s.chunks id i).isSome = true) := by
  refine ⟨progMeta s id meta, _, getProgress_some s id meta hm, rfl, ?_, ?_⟩
  · rw [progMeta_uploadedChunks]
    exact (List.pairwise_lt_range' 1 meta.totalChunks).filter _
  · intro i
    rw [progMeta_uploadedChunks]
    simp only [List.mem_filter, List.mem_range'_1]
    constructor
    · rintro ⟨⟨hi1, hi2⟩, hs⟩
      exact ⟨hi1, by omega, hs⟩
    · rintro ⟨hi1, hi2, hs⟩
      exact ⟨⟨hi1, by omega⟩, hs⟩

/-- Witness for C3: chunks 1, 3, 5 of a 5-chunk session give
`uploadedChunks = [1, 3, 5]`. -/
theorem progress_reflects_existing_chunks_witness :
    exStore3.metadata "u3" = some exMeta5 ∧
    (∃ p s', getUploadProgress exStore3 "u3" = (some p, s') ∧
      p.totalChunks = exMeta5.totalChunks ∧
      p.uploadedChunks.Sorted (· < ·) ∧
      ∀ i, i ∈ p.uploadedChunks ↔
        (1 ≤ i ∧ i ≤ exMeta5.totalChunks ∧ (exStore3.chunks "u3" i).isSome = true)) ∧
    (getUploadProgress exStore3 "u3").1.map (fun p => p.uploadedChunks) = some [1, 3, 5] ∧
    (getUploadProgress exStore3 "u3").1.map (fun p => p.totalChunks) = some 5 :=
  ⟨by decide, progress_reflects_existing_chunks exStore3 "u3" exMeta5 (by decide),
   by decide, by decide⟩

/-- C10: `getUploadProgress` computes `uploadedSize` as
`uploadedChunks.length * chunkSize` rather than summing the stored chunks'
actual byte lengths; hence for a session created by `initializeUpload`
whose `fileSize` is not an exact multiple of the (resolved) chunk size, a
fully uploaded session reports an uploaded byte count strictly greater
than `fileSize`. -/
theorem uploadedSize_exceeds_fileSize (s0 s : StoreState) (id : String) (im : InitMeta)
    (hs : s.metadata id = some (initializeUpload s0 id im).1)
    (hmod : im.fileSize % resolveChunkSize im.chunkSize ≠ 0)
    (hfull : ∀ i ∈ List.range' 1 (initializeUpload s0 id im).1.totalChunks,
      (s.chunks id i).isSome = true) :
    ∃ p s', getUploadProgress s id = (some p, s') ∧
      p.uploadedSize = some (p.uploadedChunks.length * p.chunkSize) ∧
      p.uploadedChunks.length = (initializeUpload s0 id im).1.totalChunks ∧
      ∀ u, p.uploadedSize = some u → im.fileSize < u := by
  have hfilter := List.filter_eq_self.mpr hfull
  have hlen : (progMeta s id (initializeUpload s0 id im).1).uploadedChunks.length =
      (initializeUpload s0 id im).1.totalChunks := by
    rw [progMeta_uploadedChunks]
    show ((List.range' 1 (initializeUpload s0 id im).1.totalChunks).filter
      (fun i => (s.chunks id i).isSome)).length = _
    rw [hfilter, List.length_range']
  refine ⟨progMeta s id (initializeUpload s0 id im).1, _,
    getProgress_some s id (initializeUpload s0 id im).1 hs, ?_, hlen, ?_⟩
  · rw [progMeta_uploadedSize, progMeta_chunkSize]
  · intro u hu
    rw [progMeta_uploadedSize, hlen] at hu
    obtain rfl : (initializeUpload s0 id im).1.totalChunks *
        (initializeUpload s0 id im).1.chunkSize = u := Option.some_inj.mp hu
    have hc := resolveChunkSize_pos im.chunkSize
    have hkey := ceil_mul_gt im.fileSize (resolveChunkSize im.chunkSize) hc hmod
    simpa [initializeUpload] using hkey

/-- Witness for C10: a 12-byte file with 5-byte chunks reports 15 uploaded
bytes when complete. -/
theorem uploadedSize_exceeds_fileSize_witness :
    exStore10.metadata "u4" = some (initializeUpload emptyStore "u4" exIm).1 ∧
    12 % resolveChunkSize exIm.chunkSize ≠ 0 ∧
    (∃ p s', getUploadProgress exStore10 "u4" = (some p, s') ∧
      p.uploadedSize = some (p.uploadedChunks.length * p.chunkSize) ∧
      p.uploadedChunks.length = (initializeUpload emptyStore "u4" exIm).1.totalChunks ∧
      ∀ u, p.uploadedSize = some u → exIm.fileSize < u) ∧
    (getUploadProgress exStore10 "u4").1.map (fun p => p.uploadedSize) = some (some 15) :=
  ⟨by decide, by decide,
   uploadedSize_exceeds_fileSize emptyStore exStore10 "u4" exIm (by decide) (by decide)
     (by decide),
   by decide⟩

/-- C1: when the number of present chunks (among `1..totalChunks`) differs
from `totalChunks`, `completeResumableUpload` fails with the incomplete
response carrying the actual versus expected counts, writes no facility
record, assembles nothing (the file area is untouched), and deletes no
chunk unit. -/
theorem complete_incomplete_gate (maxF : Nat) (st : AppState)
    (uploadId name code : String) (desc : Option String) (meta : UploadMetadata)
    (h1 : uploadId ≠ "") (h2 : name ≠ "") (h3 : code ≠ "")
    (h4 : validateFacilityCode (sanitizeInput code) = true)
    (h5 : st.store.metadata uploadId = some meta)
    (h6 : uploadedCount st.store uploadId meta.totalChunks ≠ meta.totalChunks) :
    ∃ st', completeResumableUpload maxF st uploadId name code desc =
        (CompleteResult.incomplete (uploadedCount st.store uploadId meta.totalChunks)
          meta.totalChunks, st') ∧
      st'.facilities = st.facilities ∧
      st'.store.chunks = st.store.chunks ∧
      st'.store.files = st.store.files := by
  have hprog := getProgress_some st.store uploadId meta h5
  have hlen : (progMeta st.store uploadId meta).uploadedChunks.length =
      uploadedCount st.store uploadId meta.totalChunks := by
    rw [progMeta_uploadedChunks]
    rfl
  refine ⟨⟨setMetadata st.store uploadId (some (progMeta st.store uploadId meta)),
    st.facilities, st.nextId, st.now⟩, ?_, rfl, rfl, rfl⟩
  unfold completeResumableUpload
  rw [if_neg (by simp [h1, h2, h3])]
  rw [if_neg (by simp [h4])]
  simp only [hprog]
  rw [if_pos (by rw [hlen, progMeta_totalChunks]; exact h6)]
  rw [hlen, progMeta_totalChunks]

/-- Witness for C1: finalize with chunks {1, 2} of 3 fails reporting 2 of
3, with chunks, files and facilities untouched. -/
theorem complete_incomplete_gate_witness :
    uploadedCount exApp1.store "u1" exMeta3.totalChunks = 2 ∧
    exMeta3.totalChunks = 3 ∧
    (∃ st', completeResumableUpload 11 exApp1 "u1" "Hospital A" "HOSP-A" none =
        (CompleteResult.incomplete (uploadedCount exApp1.store "u1" exMeta3.totalChunks)
          exMeta3.totalChunks, st') ∧
      st'.facilities = exApp1.facilities ∧
      st'.store.chunks = exApp1.store.chunks ∧
      st'.store.files = exApp1.store.files) :=
  ⟨by decide, by decide,
   complete_incomplete_gate 11 exApp1 "u1" "Hospital A" "HOSP-A" none exMeta3
     (by decide) (by decide) (by decide) (by decide) (by decide) (by decide)⟩

/-- C2: for a session with all chunks saved — by any submission sequence
whose chunk numbers are a permutation of `1..totalChunks` — `assembleChunks`
writes to the output path the byte-exact concatenation of the chunks'
bytes in ascending numeric order (not submission order); and when any
chunk in `1..totalChunks` is missing it fails, re-verified internally. -/
theorem assemble_ascending_and_gated :
    (∀ (s : StoreState) (id out : String) (meta : UploadMetadata)
       (saves : List (Nat × Bytes)),
       s.metadata id = some meta →
       (saves.map Prod.fst).Perm (List.range' 1 meta.totalChunks) →
       ∃ s', assembleChunks (applySaves s id saves) id out = (Except.ok out, s') ∧
         s'.files out = some (((List.range' 1 meta.totalChunks).map
           (fun i => (saves.lookup i).getD [])).flatten))
    ∧ (∀ (s : StoreState) (id out : String) (meta : UploadMetadata) (j : Nat),
       s.metadata id = some meta → 1 ≤ j → j ≤ meta.totalChunks →
       s.chunks id j = none →
       ∃ e s', assembleChunks s id out = (Except.error e, s')) := by
  constructor
  · intro s id out meta saves hm hperm
    have hnd : (saves.map Prod.fst).Nodup :=
      hperm.nodup_iff.mpr (List.nodup_range' 1 meta.totalChunks)
    have hpresent : ∀ i ∈ List.range' 1 meta.totalChunks,
        (applySaves s id saves).chunks id i = some ((saves.lookup i).getD []) := by
      intro i hi
      have himem : i ∈ saves.map Prod.fst := hperm.mem_iff.mpr hi
      obtain ⟨b, hb⟩ := lookup_isSome_of_mem_keys himem
      rw [applySaves_chunks_lookup id saves s i hnd]
      simp [hb]
    have hm' : (applySaves s id saves).metadata id = some meta := by
      rw [applySaves_metadata]
      exact hm
    have hfull : ∀ i ∈ List.range' 1 meta.totalChunks,
        ((applySaves s id saves).chunks id i).isSome = true := by
      intro i hi
      rw [hpresent i hi]
      rfl
    obtain ⟨hok, hfo, _, _, _, _⟩ :=
      assembleChunks_complete (applySaves s id saves) id out meta hm' hfull
    refine ⟨(assembleChunks (applySaves s id saves) id out).2, ?_, ?_⟩
    · rw [← hok]
    · rw [hfo]
      have hmap : (List.range' 1 meta.totalChunks).map
          (fun i => ((applySaves s id saves).chunks id i).getD []) =
          (List.range' 1 meta.totalChunks).map (fun i => (saves.lookup i).getD []) :=
        List.map_congr_left (fun i hi => by rw [hpresent i hi]; rfl)
      rw [hmap]
  · intro s id out meta j hm hj1 hj2 hnone
    have hmem : j ∈ List.range' 1 meta.totalChunks := by
      rw [List.mem_range'_1]
      omega
    have hnone1 : (setFile s out (some [])).chunks id j = none := by simpa using hnone
    obtain ⟨e, he⟩ := assembleFrom_err id out (List.range' 1 meta.totalChunks)
      (setFile s out (some [])) ⟨j, hmem, hnone1⟩
    refine ⟨e,
      (assembleFrom id out (setFile s out (some [])) (List.range' 1 meta.totalChunks)).2, ?_⟩
    simp only [assembleChunks, hm]
    rcases hsplit : assembleFrom id out (setFile s out (some []))
      (List.range' 1 meta.totalChunks) with ⟨r, s2⟩
    obtain rfl : r = Except.error e := by
      have hx := he
      rw [hsplit] at hx
      exact hx
    rfl

/-- Witness for C2: a 3-chunk session saved in submission order 3, 1, 2
assembles to the bytes of chunks 1, 2, 3 in that numeric order; and a
session missing chunk 3 fails to assemble. -/
theorem assemble_ascending_and_gated_witness :
    (exStoreM3.metadata "u1" = some exMeta3 ∧
     (([(3, [30]), (1, [10]), (2, [20])].map Prod.fst).Perm
       (List.range' 1 exMeta3.totalChunks)) ∧
     (∃ s', assembleChunks (applySaves exStoreM3 "u1" [(3, [30]), (1, [10]), (2, [20])])
         "u1" "out.sql" = (Except.ok "out.sql", s') ∧
       s'.files "out.sql" = some (((List.range' 1 exMeta3.totalChunks).map
         (fun i => (([(3, [30]), (1, [10]), (2, [20])] : List (Nat × Bytes)).lookup i).getD
           [])).flatten)) ∧
     ((List.range' 1 exMeta3.totalChunks).map
       (fun i => (([(3, [30]), (1, [10]), (2, [20])] : List (Nat × Bytes)).lookup i).getD
         [])).flatten = [10, 20, 30]) ∧
    (exStore1.metadata "u1" = some exMeta3 ∧ exStore1.chunks "u1" 3 = none ∧
     ∃ e s', assembleChunks exStore1 "u1" "out.sql" = (Except.error e, s')) :=
  ⟨⟨by decide, by decide,
    assemble_ascending_and_gated.1 exStoreM3 "u1" "out.sql" exMeta3
      [(3, [30]), (1, [10]), (2, [20])] (by decide) (by decide),
    by decide⟩,
   ⟨by decide, by decide,
    assemble_ascending_and_gated.2 exStore1 "u1" "out.sql" exMeta3 3
      (by decide) (by decide) (by decide) (by decide)⟩⟩

/-- A 1-chunk session record (5 bytes, 5-byte chunks). -/
def exMeta1 : UploadMetadata :=
  { uploadId := "u1", filename := none, fileSize := 5, fileHash := "h",
    chunkSize := 5, totalChunks := 1, uploadedChunks := [], uploadedSize := none,
    progress := none, status := "in_progress" }

/-- A store holding the complete 1-chunk session `u1`. -/
def exStore7 : StoreState :=
  { metadata := fun j => if j = "u1" then some exMeta1 else none,
    chunks := fun j m => if j = "u1" ∧ m = 1 then some [1] else none,
    files := fun _ => none }

/-- A facility record already registered under code `HOSP-A`. -/
def oldFac : FacilityRec :=
  { id := 1, facility_name := "Hospital A", facility_code := "HOSP-A",
    description := none, file_path := "HOSP-A_10.sql", uploaded_at := 10 }

/-- An application state with one existing `HOSP-A` facility and a
complete upload session. -/
def exApp7 : AppState := { store := exStore7, facilities := [oldFac], nextId := 2, now := 2000 }

/-- The older of two registered facilities. -/
def facA : FacilityRec :=
  { id := 1, facility_name := "A", facility_code := "FAC-A",
    description := none, file_path := "A.sql", uploaded_at := 10 }

/-- The newer of two registered facilities. -/
def facB : FacilityRec :=
  { id := 2, facility_name := "B", facility_code := "FAC-B",
    description := none, file_path := "B.sql", uploaded_at := 20 }

/-- An application state with two facilities and a complete session,
used against a ceiling of 2. -/
def exApp9 : AppState := { store := exStore7, facilities := [facA, facB], nextId := 3, now := 30 }

/-- C5 (counterexample): a finalize can succeed while a chunk storage unit
for that `uploadId` remains: cleanup deletes only units `1..totalChunks`,
so a stray unit (number 5 of a 2-chunk session, storable because chunk
numbers are never range-checked) survives the successful completion. -/
theorem finalize_leaves_stray_chunk :
    exStore5.chunks "u1" 5 = some [99] ∧
    (completeResumableUpload 11 exApp5 "u1" "Hospital A" "HOSP-A" none).1.isCompleted = true ∧
    (completeResumableUpload 11 exApp5 "u1" "Hospital A" "HOSP-A" none).2.store.chunks "u1" 5
      = some [99] := by
  refine ⟨by decide, by decide, by decide⟩

/-- C5 (amended): after every successful finalize, no chunk unit numbered
`1..totalChunks` remains, the metadata record is deleted, and a subsequent
`getUploadProgress` returns not-found (stray units outside that range may
survive). -/
theorem finalize_cleans_session_range (maxF : Nat) (st : AppState)
    (uploadId name code : String) (desc : Option String) (meta : UploadMetadata)
    (h1 : uploadId ≠ "") (h2 : name ≠ "") (h3 : code ≠ "")
    (h4 : validateFacilityCode (sanitizeInput code) = true)
    (h5 : st.store.metadata uploadId = some meta)
    (h6 : ∀ i ∈ List.range' 1 meta.totalChunks, (st.store.chunks uploadId i).isSome = true) :
    ∃ st', completeResumableUpload maxF st uploadId name code desc =
        (CompleteResult.completed (successRow st name code), st') ∧
      (∀ i ∈ List.range' 1 meta.totalChunks, st'.store.chunks uploadId i = none) ∧
      st'.store.metadata uploadId = none ∧
      (getUploadProgress st'.store uploadId).1 = none := by
  obtain ⟨hmd0, hch0, _⟩ := successStore2_spec st uploadId name code meta h5 h6
  have hstep_md : (successStep maxF st uploadId name code desc meta).2.metadata uploadId
      = none := by
    rw [successStep_snd_metadata]
    exact hmd0
  have hclean : cleanupChunks (successStep maxF st uploadId name code desc meta).2 uploadId
      = (successStep maxF st uploadId name code desc meta).2 :=
    cleanupChunks_of_none _ _ hstep_md
  refine ⟨successState maxF st uploadId name code desc meta,
    completeResumableUpload_success maxF st uploadId name code desc meta h1 h2 h3 h4 h5 h6,
    ?_, ?_, ?_⟩
  · intro i hi
    rw [successState_store, hclean, successStep_snd_chunks]
    exact hch0 i hi
  · rw [successState_store, hclean]
    exact hstep_md
  · rw [successState_store, hclean, getProgress_none _ _ hstep_md]

/-- Witness for the amended C5: completing the 2-chunk session leaves no
unit 1 or 2, deletes the metadata, and progress turns not-found. -/
theorem finalize_cleans_session_range_witness :
    (∀ i ∈ List.range' 1 exMeta2.totalChunks, (exApp5.store.chunks "u1" i).isSome = true) ∧
    (∃ st', completeResumableUpload 11 exApp5 "u1" "Hospital A" "HOSP-A" none =
        (CompleteResult.completed (successRow exApp5 "Hospital A" "HOSP-A"), st') ∧
      (∀ i ∈ List.range' 1 exMeta2.totalChunks, st'.store.chunks "u1" i = none) ∧
      st'.store.metadata "u1" = none ∧
      (getUploadProgress st'.store "u1").1 = none) :=
  ⟨by decide,
   finalize_cleans_session_range 11 exApp5 "u1" "Hospital A" "HOSP-A" none exMeta2
     (by decide) (by decide) (by decide) (by decide) (by decide) (by decide)⟩

/-- C7 (counterexample): successfully finalizing an upload whose
`facilityCode` already has a registry record does not replace that record:
the completion succeeds and the pre-existing record is still present, the
table now holding two records. -/
theorem finalize_keeps_duplicate_code_record :
    oldFac.facility_code = "HOSP-A" ∧ exApp7.facilities = [oldFac] ∧
    (completeResumableUpload 11 exApp7 "u1" "Hospital A" "HOSP-A" none).1.isCompleted = true ∧
    oldFac ∈ (completeResumableUpload 11 exApp7 "u1" "Hospital A" "HOSP-A" none).2.facilities ∧
    (completeResumableUpload 11 exApp7 "u1" "Hospital A" "HOSP-A" none).2.facilities.length
      = 2 := by
  refine ⟨by decide, by decide, by decide, by decide, by decide⟩

/-- C7 (amended): on the success path (below the ceiling) the handler
appends a new, fully-populated facility record — its `file_path` names the
just-assembled file, which exists — only after assembly succeeded; it does
not upsert by code: every pre-existing record, including one with the same
`facility_code`, is left in place, so the second completion neither fails
nor replaces. -/
theorem finalize_appends_full_record (maxF : Nat) (st : AppState)
    (uploadId name code : String) (desc : Option String) (meta : UploadMetadata)
    (h1 : uploadId ≠ "") (h2 : name ≠ "") (h3 : code ≠ "")
    (h4 : validateFacilityCode (sanitizeInput code) = true)
    (h5 : st.store.metadata uploadId = some meta)
    (h6 : ∀ i ∈ List.range' 1 meta.totalChunks, (st.store.chunks uploadId i).isSome = true)
    (h7 : st.facilities.length + 1 ≤ maxF) :
    ∃ st', completeResumableUpload maxF st uploadId name code desc =
        (CompleteResult.completed (successRow st name code), st') ∧
      st'.facilities = st.facilities ++ [successNewRec st name code desc] ∧
      (successNewRec st name code desc).file_path = finalPath st code ∧
      st'.store.files (finalPath st code) ≠ none := by
  obtain ⟨hmd0, _, hfiles⟩ := successStore2_spec st uploadId name code meta h5 h6
  have hstep := successStep_no_evict maxF st uploadId name code desc meta h7
  have hstep_md : (successStep maxF st uploadId name code desc meta).2.metadata uploadId
      = none := by
    rw [successStep_snd_metadata]
    exact hmd0
  have hclean : cleanupChunks (successStep maxF st uploadId name code desc meta).2 uploadId
      = (successStep maxF st uploadId name code desc meta).2 :=
    cleanupChunks_of_none _ _ hstep_md
  refine ⟨successState maxF st uploadId name code desc meta,
    completeResumableUpload_success maxF st uploadId name code desc meta h1 h2 h3 h4 h5 h6,
    ?_, rfl, ?_⟩
  · rw [successState_facilities, hstep]
  · rw [successState_store, hclean, hstep]
    show (successStore2 st uploadId code meta).files (finalPath st code) ≠ none
    rw [hfiles]
    simp

/-- Witness for the amended C7: a second completion for code `HOSP-A`
succeeds and appends, leaving the original `HOSP-A` record in place. -/
theorem finalize_appends_full_record_witness :
    exApp7.facilities = [oldFac] ∧
    oldFac.facility_code = sanitizeInput "HOSP-A" ∧
    (∃ st', completeResumableUpload 11 exApp7 "u1" "Hospital A" "HOSP-A" none =
        (CompleteResult.completed (successRow exApp7 "Hospital A" "HOSP-A"), st') ∧
      st'.facilities = exApp7.facilities ++ [successNewRec exApp7 "Hospital A" "HOSP-A" none] ∧
      (successNewRec exApp7 "Hospital A" "HOSP-A" none).file_path = finalPath exApp7 "HOSP-A" ∧
      st'.store.files (finalPath exApp7 "HOSP-A") ≠ none) :=
  ⟨by decide, by decide,
   finalize_appends_full_record 11 exApp7 "u1" "Hospital A" "HOSP-A" none exMeta1
     (by decide) (by decide) (by decide) (by decide) (by decide) (by decide) (by decide)⟩

/-- C9: when a successful finalize pushes the facility count above the
ceiling, exactly the facility with the (unique) oldest `uploaded_at` is
removed — its table record deleted and its backing file deleted — while
every newer facility record remains alongside the new one. -/
theorem eviction_removes_unique_oldest (maxF : Nat) (st : AppState)
    (uploadId name code : String) (desc : Option String) (meta : UploadMetadata)
    (m : FacilityRec)
    (h1 : uploadId ≠ "") (h2 : name ≠ "") (h3 : code ≠ "")
    (h4 : validateFacilityCode (sanitizeInput code) = true)
    (h5 : st.store.metadata uploadId = some meta)
    (h6 : ∀ i ∈ List.range' 1 meta.totalChunks, (st.store.chunks uploadId i).isSome = true)
    (h7 : maxF < st.facilities.length + 1)
    (hmem : m ∈ st.facilities)
    (hmin : ∀ r ∈ st.facilities, r ≠ m → m.uploaded_at < r.uploaded_at)
    (hnew : m.uploaded_at < st.now)
    (hids : ∀ r ∈ st.facilities, r.id = m.id → r = m)
    (hnid : m.id ≠ st.nextId) :
    ∃ st', completeResumableUpload maxF st uploadId name code desc =
        (CompleteResult.completed (successRow st name code), st') ∧
      st'.facilities = st.facilities.filter (fun r => decide (r ≠ m)) ++
        [successNewRec st name code desc] ∧
      m ∉ st'.facilities ∧
      st'.store.files m.file_path = none := by
  have hold : oldestFacility (st.facilities ++ [successNewRec st name code desc]) = some m := by
    apply oldestFacility_eq_of_unique_min
    · exact List.mem_append.mpr (Or.inl hmem)
    · intro r hr hrm
      rcases List.mem_append.mp hr with h | h
      · exact hmin r h hrm
      · have hre : r = successNewRec st name code desc := by simpa using h
        rw [hre]
        exact hnew
  have hstep := successStep_evict maxF st uploadId name code desc meta m h7 hold
  obtain ⟨hmd0, _, _⟩ := successStore2_spec st uploadId name code meta h5 h6
  have hstep_md : (successStep maxF st uploadId name code desc meta).2.metadata uploadId
      = none := by
    rw [successStep_snd_metadata]
    exact hmd0
  have hclean : cleanupChunks (successStep maxF st uploadId name code desc meta).2 uploadId
      = (successStep maxF st uploadId name code desc meta).2 :=
    cleanupChunks_of_none _ _ hstep_md
  have hne : (successNewRec st name code desc).id ≠ m.id := fun hE => hnid hE.symm
  have hfacs : (successStep maxF st uploadId name code desc meta).1 =
      st.facilities.filter (fun r => decide (r ≠ m)) ++
        [successNewRec st name code desc] := by
    rw [hstep]
    show (st.facilities ++ [successNewRec st name code desc]).filter
      (fun r => decide (r.id ≠ m.id)) = _
    rw [List.filter_append]
    congr 1
    · apply List.filter_congr
      intro r hr
      rw [decide_eq_decide]
      constructor
      · intro hP hE
        exact hP (by rw [hE])
      · intro hQ hE
        exact hQ (hids r hr hE)
    · simp [List.filter_singleton, hne]
  refine ⟨successState maxF st uploadId name code desc meta,
    completeResumableUpload_success maxF st uploadId name code desc meta h1 h2 h3 h4 h5 h6,
    ?_, ?_, ?_⟩
  · rw [successState_facilities]
    exact hfacs
  · rw [successState_facilities, hfacs]
    intro hmem'
    rcases List.mem_append.mp hmem' with h | h
    · have hf := List.mem_filter.mp h
      simp at hf
    · have hE : m = successNewRec st name code desc := by simpa using h
      exact hne (by rw [hE])
  · rw [successState_store, hclean, hstep]
    show (setFile (successStore2 st uploadId code meta) m.file_path none).files m.file_path
      = none
    simp

/-- Witness for C9: with the ceiling 2 and facilities `facA` (oldest) and
`facB` present, a third successful completion evicts exactly `facA`,
record and backing file, leaving `facB` and the new record. -/
theorem eviction_removes_unique_oldest_witness :
    exApp9.facilities.length = 2 ∧ facA ∈ exApp9.facilities ∧
    (∃ st', completeResumableUpload 2 exApp9 "u1" "Hospital C" "HOSP-C" none =
        (CompleteResult.completed (successRow exApp9 "Hospital C" "HOSP-C"), st') ∧
      st'.facilities = exApp9.facilities.filter (fun r => decide (r ≠ facA)) ++
        [successNewRec exApp9 "Hospital C" "HOSP-C" none] ∧
      facA ∉ st'.facilities ∧
      st'.store.files facA.file_path = none) ∧
    exApp9.facilities.filter (fun r => decide (r ≠ facA)) = [facB] :=
  ⟨by decide, by decide,
   eviction_removes_unique_oldest 2 exApp9 "u1" "Hospital C" "HOSP-C" none exMeta1 facA
     (by decide) (by decide) (by decide) (by decide) (by decide) (by decide) (by decide)
     (by decide) (by decide) (by decide) (by decide) (by decide),
   by decide⟩

end FacilityUpload
